import Mathlib

/-!
Verification development for the HW-requirement parsing core of `tmt`
(`src/tmt/hardware.py`).  The Python module is shallowly embedded below:

* the `VALUE_PATTERN` regular expression
  `^(?P<operator>==|!=|>|>=|<|<=|=~|contains|not contains)?\s*(?P<value>.+?)\s*$`
  is embedded as the deterministic backtracking matcher `matchValuePattern`
  (ordered alternation, greedy `\s*`, lazy `.+?`).  `\s` is modelled over the
  ASCII range; `.` matches any character except the newline.
* `pint`'s unit registry `UNITS` is an external, opaque capability; a call
  `UNITS(text)` is modelled by the opaque constructor
  `ConstraintValueType.quantity text` which records the text handed over.
* Python exceptions surface as `Except TmtError`; `TmtError.parseError`
  models `ParseError` (carrying `constraint_name` and `raw_value`; the
  constant default message is not modelled), `TmtError.typeError` models the
  `TypeError` that `re.match` raises on a non-string argument, and
  `TmtError.keyError` models a `KeyError` from dict indexing (never reachable
  through the parsers embedded here).
* `Constraint.original_constraint` is omitted: no code in the module ever
  passes a value other than the default `None` for it.
-/

namespace Tmt

/-- `class Operator(enum.Enum)` - binary operators defined by specification. -/
inductive Operator
| EQ
| NEQ
| GT
| GTE
| LT
| LTE
| MATCH
| CONTAINS
| NOTCONTAINS
deriving DecidableEq

/-- The textual sign of each operator (the enum member values). -/
def Operator.sign : Operator → String
| .EQ => "=="
| .NEQ => "!="
| .GT => ">"
| .GTE => ">="
| .LT => "<"
| .LTE => "<="
| .MATCH => "=~"
| .CONTAINS => "contains"
| .NOTCONTAINS => "not contains"

/-- Enum members in definition order: the order in which
`"|".join(operator.value for operator in Operator)` lists the alternatives of
the `operator` group of `VALUE_PATTERN`. -/
def OPERATORS_IN_ORDER : List Operator :=
  [.EQ, .NEQ, .GT, .GTE, .LT, .LTE, .MATCH, .CONTAINS, .NOTCONTAINS]

/-- The evaluation handlers stored in `OPERATOR_TO_HANDLER`.  The Python
values are function objects (`operator.eq`, ..., `match`, `notcontains`);
here each distinct function object is one constructor. -/
inductive OperatorHandlerType
| op_eq
| op_ne
| op_gt
| op_ge
| op_lt
| op_le
| fn_match
| op_contains
| fn_notcontains
deriving DecidableEq

/-- `OPERATOR_SIGN_TO_OPERATOR` - sign text to operator.  (The `'='` key of
the Python dict is unreachable: `'='` is not an alternative of
`VALUE_PATTERN`'s operator group.) -/
def OPERATOR_SIGN_TO_OPERATOR (sign : String) : Option Operator :=
  if sign = "=" then some .EQ
  else if sign = "==" then some .EQ
  else if sign = "!=" then some .NEQ
  else if sign = ">" then some .GT
  else if sign = ">=" then some .GTE
  else if sign = "<" then some .LT
  else if sign = "<=" then some .LTE
  else if sign = "=~" then some .MATCH
  else if sign = "contains" then some .CONTAINS
  else if sign = "not contains" then some .NOTCONTAINS
  else none

/-- `OPERATOR_TO_HANDLER` dispatch table. -/
def OPERATOR_TO_HANDLER : Operator → OperatorHandlerType
| .EQ => .op_eq
| .NEQ => .op_ne
| .GT => .op_gt
| .GTE => .op_ge
| .LT => .op_lt
| .LTE => .op_le
| .MATCH => .fn_match
| .CONTAINS => .op_contains
| .NOTCONTAINS => .fn_notcontains

/-! ## The `VALUE_PATTERN` regular expression -/

/-- Python `\s` restricted to the ASCII range (all inputs appearing in the
module and in the claims are ASCII). -/
def isReSpace (c : Char) : Bool :=
  c = ' ' || c = '\t' || c = '\n' || c = '\r' || c = '\x0b' || c = '\x0c'

/-- The lazy group `(?P<value>.+?)` followed by `\s*$`: the shortest
non-empty prefix made of non-newline characters whose remainder is all
whitespace.  Returns that prefix, or `none` when no such split exists. -/
def findValue : List Char → Option (List Char)
| [] => none
| c :: rest =>
  if c = '\n' then none
  else if rest.all isReSpace then some [c]
  else (findValue rest).map (fun v => c :: v)

/-- Backtracking over the greedy `\s*` before the value group: try dropping
`i` leading whitespace characters, `i` descending from the length of the
maximal whitespace run down to `0`, and return the first value the lazy
group finds. -/
def matchTailFrom : Nat → List Char → Option (List Char)
| i, s =>
  match findValue (s.drop i) with
  | some v => some v
  | none => match i with
    | 0 => none
    | j + 1 => matchTailFrom j s

/-- Match `\s*(?P<value>.+?)\s*$` against `s`, returning the value group. -/
def matchTail (s : List Char) : Option (List Char) :=
  matchTailFrom (s.takeWhile isReSpace).length s

/-- Ordered alternation of the optional `operator` group: try each sign in
enum definition order; a sign is chosen when it is a literal prefix of the
input *and* the rest of the pattern matches the remaining text; otherwise
fall through to the next alternative, and finally to the group being
absent. -/
def matchOperatorAlternatives : List Operator → List Char →
    Option (Option String × List Char)
| [], s => (matchTail s).map (fun v => (none, v))
| o :: os, s =>
  if (o.sign.toList).isPrefixOf s then
    match matchTail (s.drop o.sign.toList.length) with
    | some v => some (some o.sign, v)
    | none => matchOperatorAlternatives os s
  else matchOperatorAlternatives os s

/-- `VALUE_PATTERN.match(raw_value)`: returns the matched `operator` group
(`none` when the optional group is absent) and the `value` group, or `none`
when the whole pattern fails to match. -/
def matchValuePattern (raw_value : String) : Option (Option String × String) :=
  (matchOperatorAlternatives OPERATORS_IN_ORDER raw_value.toList).map
    (fun p => (p.1, p.2.asString))

/-! ## Constraint values, errors, leaves -/

/-- `ConstraintValueType = Union[int, Quantity, str, bool]`.  The
`quantity` constructor opaquely records the text handed to `UNITS(...)`
(the pint registry is an external capability; whatever object - `int` or
`Quantity` - pint builds from the text is represented by the text itself). -/
inductive ConstraintValueType
| quantity : String → ConstraintValueType
| str : String → ConstraintValueType
| bool : Bool → ConstraintValueType
deriving DecidableEq

/-- Python exceptions escaping the parsing code. -/
inductive TmtError
| parseError (constraint_name : String) (raw_value : String)
| typeError
| keyError (key : String)
deriving DecidableEq

/-- `ConstraintNameComponents` named tuple. -/
structure ConstraintNameComponents where
  property : String
  property_index : Option Int
  child_property : Option String
deriving DecidableEq

/-- `Constraint` dataclass (leaf).  `original_constraint` is omitted: never
set by any code in the module. -/
structure Constraint where
  name : String
  operator : Operator
  operator_handler : OperatorHandlerType
  value : ConstraintValueType
  raw_value : String
  unit : Option String
deriving DecidableEq

/-- The only `as_cast` callable ever passed in the module is Python's
`bool`. -/
inductive AsCast
| toBool
deriving DecidableEq

/-- Applying the cast: Python `bool(s)` on a string is `True` iff the string
is non-empty. -/
def applyCast : AsCast → String → ConstraintValueType
| .toBool, s => .bool (!s.isEmpty)

/-- `Constraint.from_specification(name, raw_value, as_quantity, as_cast)`;
`as_quantity` defaults to `True` and `as_cast` to `None` in the source, so
call sites that rely on the defaults pass `true` / `none` here.  The `unit`
field of the dataclass keeps its default `None`.  Note the Python
reassignment `raw_value = groups['value']` before the value conversion: the
*stored* `raw_value` is the `value` capture group. -/
def Constraint.from_specification (name : String) (raw_value : String)
    (as_quantity : Bool) (as_cast : Option AsCast) :
    Except TmtError Constraint :=
  match matchValuePattern raw_value with
  | none => .error (.parseError name raw_value)
  | some (op_group, value_text) =>
    match op_group with
    | some sign =>
      match OPERATOR_SIGN_TO_OPERATOR sign with
      | none => .error (.keyError sign)
      | some operator =>
        .ok
          { name := name
            operator := operator
            operator_handler := OPERATOR_TO_HANDLER operator
            value :=
              if as_quantity then .quantity value_text
              else match as_cast with
                | some cast => applyCast cast value_text
                | none => .str value_text
            raw_value := value_text
            unit := none }
    | none =>
      .ok
        { name := name
          operator := Operator.EQ
          operator_handler := OPERATOR_TO_HANDLER Operator.EQ
          value :=
            if as_quantity then .quantity value_text
            else match as_cast with
              | some cast => applyCast cast value_text
              | none => .str value_text
          raw_value := value_text
          unit := none }

/-- `Constraint.change_operator`: replaces the operator and its handler
together (functional rendering of the in-place mutation). -/
def Constraint.change_operator (c : Constraint) (operator : Operator) :
    Constraint :=
  { c with operator := operator, operator_handler := OPERATOR_TO_HANDLER operator }

/-! ## The `PROPERTY_EXPAND_PATTERN` regular expression

`(?P<name>[a-z_+]+)(?:\[(?P<index>[+-]?\d+)\])?(?:\.(?P<child_name>[a-z_]+))?`
used via `re.match` (prefix match).  The leading `[a-z_+]+` is greedy and no
later group can consume a character of its class, so the maximal run is
always taken; the two optional groups match literally or are absent - no
backtracking across groups can occur. -/

/-- Character class `[a-z_+]` of the `name` group. -/
def isNameChar (c : Char) : Bool :=
  (Char.ofNat 97 ≤ c && c ≤ Char.ofNat 122) || c = '_' || c = '+'

/-- Character class `[a-z_]` of the `child_name` group. -/
def isChildChar (c : Char) : Bool :=
  (Char.ofNat 97 ≤ c && c ≤ Char.ofNat 122) || c = '_'

/-- `\d` (ASCII). -/
def isReDigit (c : Char) : Bool :=
  '0' ≤ c && c ≤ '9'

/-- Decimal value of a digit run (for Python `int(groups['index'])`). -/
def digitsToNat (ds : List Char) : Nat :=
  ds.foldl (fun a c => a * 10 + (c.toNat - 48)) 0

/-- The optional group `(?:\[(?P<index>[+-]?\d+)\])?`: when the following
text is literally `[`, an optional sign, one or more digits, `]`, consume it
and return `int(index-text)`; otherwise the group is absent and no text is
consumed. -/
def parseIndexPart (s : List Char) : Option Int × List Char :=
  match s with
  | '[' :: rest =>
    let signed : Int × List Char :=
      match rest with
      | '+' :: r => (1, r)
      | '-' :: r => (-1, r)
      | r => (1, r)
    let ds := signed.2.takeWhile isReDigit
    if ds.isEmpty then (none, s)
    else
      match signed.2.drop ds.length with
      | ']' :: after => (some (signed.1 * (digitsToNat ds : Int)), after)
      | _ => (none, s)
  | _ => (none, s)

/-- The optional group `(?:\.(?P<child_name>[a-z_]+))?`. -/
def parseChildPart (s : List Char) : Option String :=
  match s with
  | '.' :: rest =>
    let cs := rest.takeWhile isChildChar
    if cs.isEmpty then none else some cs.asString
  | _ => none

/-- `PROPERTY_EXPAND_PATTERN.match(name)`: `none` models a failed match
(the `assert match is not None` in `expand_name` firing). -/
def propertyExpandMatch (name : String) : Option ConstraintNameComponents :=
  let cs := name.toList
  let nm := cs.takeWhile isNameChar
  if nm.isEmpty then none
  else
    let idx := parseIndexPart (cs.drop nm.length)
    some
      { property := nm.asString
        property_index := idx.1
        child_property := parseChildPart idx.2 }

/-- `Constraint.expand_name`; `none` models the `AssertionError` raised when
the pattern fails to match the constraint's name. -/
def Constraint.expand_name (c : Constraint) : Option ConstraintNameComponents :=
  propertyExpandMatch c.name

/-- `Constraint.uses_constraint` (leaf): the decomposed `property` equals
the queried name; `none` when `expand_name` assert-fails. -/
def Constraint.uses_constraint (c : Constraint) (constraint_name : String) :
    Option Bool :=
  (c.expand_name).map (fun comps => comps.property = constraint_name)

/-! ## The constraint tree -/

/-- The tree of `ConstraintBase` objects: leaves (`Constraint`) and the two
instantiated compound classes `And` / `Or`.  The abstract classes
`ConstraintBase` / `CompoundConstraint` are never instantiated by the
module's code. -/
inductive ConstraintTree
| leaf : Constraint → ConstraintTree
| and : List ConstraintTree → ConstraintTree
| or : List ConstraintTree → ConstraintTree

/-- `isinstance(constraint, CompoundConstraint)`. -/
def isCompound : ConstraintTree → Bool
| .leaf _ => false
| .and _ => true
| .or _ => true

/-- `itertools.product` over lists of lists (odometer order, rightmost
factor varying fastest; the product of zero factors is one empty tuple). -/
def listProduct {α : Type} : List (List α) → List (List α)
| [] => [[]]
| l :: ls => l.flatMap (fun x => (listProduct ls).map (fun comb => x :: comb))

mutual

/-- `spans(parent, members)`.  Leaf (base-class implementation): the single
span `members + [self]`.  `And`: cartesian product of the compound
children's spans, each combination flattened and followed by the simple
(non-compound) children, behind `members`.  `Or`: every span of every child,
behind `members`.  The Python generator is modelled as the list of spans it
yields, in order; the unused `parent` logger argument is dropped. -/
def spans (t : ConstraintTree) (members : List ConstraintTree) :
    List (List ConstraintTree) :=
  match t with
  | .leaf c => [members ++ [ConstraintTree.leaf c]]
  | .and cs =>
    (listProduct (compoundSpans cs)).map
      (fun compounds =>
        members ++ compounds.flatten ++ cs.filter (fun c => !(isCompound c)))
  | .or cs => (orSpans cs).map (fun span => members ++ span)
termination_by sizeOf t

/-- `[constraint.spans(parent) for constraint in compound_constraints]`
where `compound_constraints` are the compound children, in order. -/
def compoundSpans (cs : List ConstraintTree) :
    List (List (List ConstraintTree)) :=
  match cs with
  | [] => []
  | c :: rest =>
    if isCompound c then spans c [] :: compoundSpans rest
    else compoundSpans rest
termination_by sizeOf cs

/-- The concatenation of `constraint.spans(parent)` over all children, in
order (the double loop of `Or.spans`). -/
def orSpans (cs : List ConstraintTree) : List (List ConstraintTree) :=
  match cs with
  | [] => []
  | c :: rest => spans c [] ++ orSpans rest
termination_by sizeOf cs

end

mutual

/-- `uses_constraint` on a tree node.  Compound nodes use `any(...)` over a
generator: children are queried left to right, stopping at the first
`True`; a child whose query assert-fails (`none`) before that point makes
the whole call fail. -/
def uses_constraint (t : ConstraintTree) (constraint_name : String) :
    Option Bool :=
  match t with
  | .leaf c => c.uses_constraint constraint_name
  | .and cs => usesAny cs constraint_name
  | .or cs => usesAny cs constraint_name
termination_by sizeOf t

/-- Python `any(child.uses_constraint(...) for child in constraints)`:
left-to-right with short-circuit on `True`. -/
def usesAny (cs : List ConstraintTree) (constraint_name : String) :
    Option Bool :=
  match cs with
  | [] => some false
  | c :: rest =>
    match uses_constraint c constraint_name with
    | none => none
    | some true => some true
    | some false => usesAny rest constraint_name
termination_by sizeOf cs

end

/-! ## Raw specification data and the domain sub-parsers -/

/-- `SpecType`: the raw requirement structure as loaded from fmf metadata -
nested mappings and lists over strings, integers and booleans (floats do not
occur in the module or the claims and are omitted). -/
inductive Spec
| str : String → Spec
| int : Int → Spec
| bool : Bool → Spec
| list : List Spec → Spec
| dict : List (String × Spec) → Spec

/-- Python `repr` of a spec value (used by `str` on containers).  String
escaping inside `repr` is not modelled beyond quoting - no claim exercises
it. -/
def pyRepr (s : Spec) : String :=
  match s with
  | .str t => "\x27" ++ t ++ "\x27"
  | .int i => toString i
  | .bool b => if b then "True" else "False"
  | .list xs =>
    "[" ++ String.intercalate ", " (xs.attach.map (fun x => pyRepr x.1)) ++ "]"
  | .dict kvs =>
    "\x7b" ++
      String.intercalate ", "
        (kvs.attach.map
          (fun kv => "\x27" ++ kv.1.1 ++ "\x27: " ++ pyRepr kv.1.2)) ++
      "\x7d"
termination_by sizeOf s
decreasing_by
  · have := List.sizeOf_lt_of_mem x.2
    simp only [Spec.list.sizeOf_spec]
    omega
  · have h1 := List.sizeOf_lt_of_mem kv.2
    have h2 : sizeOf kv.1.2 < sizeOf kv.1 := by
      obtain ⟨a, b⟩ := kv.1
      simp only [Prod.mk.sizeOf_spec]
      omega
    simp only [Spec.dict.sizeOf_spec]
    omega

/-- Python `str` of a spec value. -/
def pyStr (s : Spec) : String :=
  match s with
  | .str t => t
  | other => pyRepr other

/-- `spec[key]` / `key in spec` on a mapping.  (On a non-mapping, key lookup
yields nothing; the list/str membership oddities of Python `in` never arise
in the module's usage.) -/
def Spec.find (s : Spec) (key : String) : Option Spec :=
  match s with
  | .dict kvs => kvs.lookup key
  | _ => none

/-- `key in spec`. -/
def Spec.hasKey (s : Spec) (key : String) : Bool :=
  (s.find key).isSome

/-- The `@ungroupify` decorator: a compound result with exactly one child is
replaced by that child. -/
def ungroupify (t : ConstraintTree) : ConstraintTree :=
  match t with
  | .and [c] => c
  | .or [c] => c
  | other => other

/-- Values handed *directly* (without `str(...)`) to
`Constraint.from_specification` must already be strings: on any other type
`re.match` raises `TypeError`. -/
def expectStr (s : Spec) : Except TmtError String :=
  match s with
  | .str t => .ok t
  | _ => .error .typeError

/-- A list comprehension over a fallible body: elements are produced left
to right and the first failure aborts the whole comprehension. -/
def mapExcept {α β : Type} (f : α → Except TmtError β) :
    List α → Except TmtError (List β)
| [] => .ok []
| x :: xs => do
  let y ← f x
  let ys ← mapExcept f xs
  pure (y :: ys)

/-- Shared shape of the comprehensions
`[Constraint.from_specification(...) for name in (...) if name in spec]`:
keep the keys present in `spec`, in the listed order, and build one leaf per
key (a `KeyError` on a filtered-in key is impossible but modelled
faithfully as dict indexing). -/
def constraintsForKeys (spec : Spec) (keys : List String)
    (build : String → Spec → Except TmtError Constraint) :
    Except TmtError (List ConstraintTree) :=
  mapExcept
    (fun k =>
      match spec.find k with
      | some v => (build k v).map ConstraintTree.leaf
      | none => .error (.keyError k))
    (keys.filter (fun k => spec.hasKey k))

/-- One `if 'method' in spec:` block of `_parse_boot`: the optional
`boot.method` leaf with the `EQ`/`NEQ` to `CONTAINS`/`NOTCONTAINS`
rewrite. -/
def _hw_key_boot_method (spec : Spec) :
    Except TmtError (List ConstraintTree) :=
  match spec.find "method" with
  | some v => do
    let raw ← expectStr v
    let constraint ← Constraint.from_specification "boot.method" raw false none
    let constraint :=
      if constraint.operator = Operator.EQ then
        constraint.change_operator Operator.CONTAINS
      else if constraint.operator = Operator.NEQ then
        constraint.change_operator Operator.NOTCONTAINS
      else constraint
    pure [ConstraintTree.leaf constraint]
  | none => pure []

/-- An `if key in spec:` block appending one leaf whose raw value is taken
directly (it must be a string) and not unit-parsed - the shape used for
`arch`, `hostname` and `virtualization.hypervisor`. -/
def _hw_key_direct (spec : Spec) (key : String) (nm : String) :
    Except TmtError (List ConstraintTree) :=
  match spec.find key with
  | some v => do
    let raw ← expectStr v
    let c ← Constraint.from_specification nm raw false none
    pure [ConstraintTree.leaf c]
  | none => pure []

/-- An `if key in spec:` block appending one leaf built from
`str(spec[key])` with the `bool` cast - the shape used for
`virtualization.is_virtualized` and `virtualization.is_supported`. -/
def _hw_key_bool (spec : Spec) (key : String) (nm : String) :
    Except TmtError (List ConstraintTree) :=
  match spec.find key with
  | some v => do
    let c ← Constraint.from_specification nm (pyStr v) false (some .toBool)
    pure [ConstraintTree.leaf c]
  | none => pure []

/-- An `if key in spec:` block appending one leaf built from
`str(spec[key])` as a quantity - the shape used for `memory`. -/
def _hw_key_quantity (spec : Spec) (key : String) (nm : String) :
    Except TmtError (List ConstraintTree) :=
  match spec.find key with
  | some v => do
    let c ← Constraint.from_specification nm (pyStr v) true none
    pure [ConstraintTree.leaf c]
  | none => pure []

/-- An `if key in spec:` block delegating the value to a domain
sub-parser. -/
def _hw_key_sub (spec : Spec) (key : String)
    (sub : Spec → Except TmtError ConstraintTree) :
    Except TmtError (List ConstraintTree) :=
  match spec.find key with
  | some v => do
    let t ← sub v
    pure [t]
  | none => pure []

/-- `_parse_boot` (with its `@ungroupify` decorator applied to the returned
group). -/
def _parse_boot (spec : Spec) : Except TmtError ConstraintTree := do
  let constraints ← _hw_key_boot_method spec
  pure (ungroupify (.and constraints))

/-- `_parse_virtualization` (decorated with `@ungroupify`). -/
def _parse_virtualization (spec : Spec) : Except TmtError ConstraintTree := do
  let c1 ← _hw_key_bool spec "is-virtualized" "virtualization.is_virtualized"
  let c2 ← _hw_key_bool spec "is-supported" "virtualization.is_supported"
  let c3 ← _hw_key_direct spec "hypervisor" "virtualization.hypervisor"
  pure (ungroupify (.and (c1 ++ c2 ++ c3)))

/-- `constraint_name.replace("-", "_")` (the only replaced text is the
single character `-`). -/
def replaceDash (s : String) : String :=
  String.map (fun c => if c = '-' then '_' else c) s

/-- `_parse_cpu` (decorated with `@ungroupify`). -/
def _parse_cpu (spec : Spec) : Except TmtError ConstraintTree := do
  let quantities ← constraintsForKeys spec ["processors", "cores", "model", "family"]
    (fun k v => Constraint.from_specification ("cpu." ++ k) (pyStr v) true none)
  let strings ← constraintsForKeys spec ["model-name"]
    (fun k v =>
      Constraint.from_specification ("cpu." ++ replaceDash k) (pyStr v) false none)
  pure (ungroupify (.and (quantities ++ strings)))

/-- `_parse_disk` (note: *no* `@ungroupify` on this one). -/
def _parse_disk (spec : Spec) (disk_index : Nat) :
    Except TmtError ConstraintTree := do
  let constraints ← constraintsForKeys spec ["size"]
    (fun k v =>
      Constraint.from_specification
        ("disk[" ++ toString disk_index ++ "]." ++ k) (pyStr v) true none)
  pure (.and constraints)

/-- `_parse_disks` (decorated with `@ungroupify`): a mapping is the legacy
single-disk form parsed at index `0`; a list is parsed element-wise with the
position as index; anything else fails `enumerate`. -/
def _parse_disks (spec : Spec) : Except TmtError ConstraintTree := do
  match spec with
  | .dict _ => pure (ungroupify (← _parse_disk spec 0))
  | .list disk_specs => do
    let constraints ← mapExcept (fun p => _parse_disk p.2 p.1)
      (List.enum disk_specs)
    pure (ungroupify (.and constraints))
  | _ => .error .typeError

/-- `_parse_network` (no `@ungroupify`). -/
def _parse_network (spec : Spec) (network_index : Nat) :
    Except TmtError ConstraintTree := do
  let constraints ← constraintsForKeys spec ["type"]
    (fun k v =>
      Constraint.from_specification
        ("network[" ++ toString network_index ++ "]." ++ k) (pyStr v) false none)
  pure (.and constraints)

/-- `_parse_networks` (decorated with `@ungroupify`). -/
def _parse_networks (spec : Spec) : Except TmtError ConstraintTree := do
  match spec with
  | .list network_specs => do
    let constraints ← mapExcept (fun p => _parse_network p.2 p.1)
      (List.enum network_specs)
    pure (ungroupify (.and constraints))
  | _ => .error .typeError

/-- `_parse_generic_spec` (decorated with `@ungroupify`): the applicable
domain sub-parsers in the fixed order `arch, boot, cpu, memory, disk,
network, hostname, virtualization`, collected into one `And` group. -/
def _parse_generic_spec (spec : Spec) : Except TmtError ConstraintTree := do
  let arch ← _hw_key_direct spec "arch" "arch"
  let boot ← _hw_key_sub spec "boot" _parse_boot
  let cpu ← _hw_key_sub spec "cpu" _parse_cpu
  let memory ← _hw_key_quantity spec "memory" "memory"
  let disk ← _hw_key_sub spec "disk" _parse_disks
  let network ← _hw_key_sub spec "network" _parse_networks
  let hostname ← _hw_key_direct spec "hostname" "hostname"
  let virtualization ← _hw_key_sub spec "virtualization" _parse_virtualization
  pure (ungroupify (.and
    (arch ++ boot ++ cpu ++ memory ++ disk ++ network ++ hostname ++
      virtualization)))

/-- Auxiliary size bound: a value found in a mapping is structurally
smaller than the mapping. -/
theorem lookup_sizeOf_lt :
    ∀ (kvs : List (String × Spec)) (k : String) (v : Spec),
      kvs.lookup k = some v → sizeOf v < sizeOf kvs := by
  intro kvs
  induction kvs with
  | nil => intro k v h; simp [List.lookup] at h
  | cons p rest ih =>
    intro k v h
    rw [List.lookup] at h
    split at h
    · cases h
      obtain ⟨a, b⟩ := p
      simp only [List.cons.sizeOf_spec, Prod.mk.sizeOf_spec]
      omega
    · have := ih k v h
      simp only [List.cons.sizeOf_spec]
      omega

/-- A value found under a key is structurally smaller than the spec. -/
theorem Spec.sizeOf_find_lt {s : Spec} {k : String} {v : Spec}
    (h : s.find k = some v) : sizeOf v < sizeOf s := by
  cases s <;> simp [Spec.find] at h
  case dict kvs =>
    have := lookup_sizeOf_lt kvs k v h
    simp only [Spec.dict.sizeOf_spec]
    omega

mutual

/-- `_parse_block`: dispatch on an `and` key, then an `or` key, then the
generic leaf-bearing object. -/
def _parse_block (spec : Spec) : Except TmtError ConstraintTree :=
  match hand : spec.find "and" with
  | some v => _parse_and v
  | none =>
    match hor : spec.find "or" with
    | some v => _parse_or v
    | none => _parse_generic_spec spec
termination_by sizeOf spec
decreasing_by
· exact Spec.sizeOf_find_lt hand
· exact Spec.sizeOf_find_lt hor

/-- `_parse_and` (decorated with `@ungroupify`): every member of the list is
parsed by `_parse_block` and the results grouped under `And`.  Iterating a
non-list raises (modelled as `TypeError`, unreachable through valid
specs). -/
def _parse_and (spec : Spec) : Except TmtError ConstraintTree :=
  match spec with
  | .list members => do
    let constraints ← _parse_blocks members
    pure (ungroupify (.and constraints))
  | _ => .error .typeError
termination_by sizeOf spec
decreasing_by
simp only [Spec.list.sizeOf_spec]; omega

/-- `_parse_or` (decorated with `@ungroupify`). -/
def _parse_or (spec : Spec) : Except TmtError ConstraintTree :=
  match spec with
  | .list members => do
    let constraints ← _parse_blocks members
    pure (ungroupify (.or constraints))
  | _ => .error .typeError
termination_by sizeOf spec
decreasing_by
simp only [Spec.list.sizeOf_spec]; omega

/-- The list comprehension `[_parse_block(member) for member in spec]`
(left to right, failing fast). -/
def _parse_blocks (members : List Spec) :
    Except TmtError (List ConstraintTree) :=
  match members with
  | [] => pure []
  | m :: rest => do
    let c ← _parse_block m
    let cs ← _parse_blocks rest
    pure (c :: cs)
termination_by sizeOf members
decreasing_by
· simp only [List.cons.sizeOf_spec]; omega
· simp only [List.cons.sizeOf_spec]; omega

end

/-- `parse_hw_requirements`: the top-level entry point. -/
def parse_hw_requirements (spec : Spec) : Except TmtError ConstraintTree :=
  _parse_block spec

/-! ## General lemmas about the embedding -/

theorem exceptBind_ok_iff {ε α β : Type} {x : Except ε α} {f : α → Except ε β}
    {b : β} : (x >>= f) = .ok b ↔ ∃ a, x = .ok a ∧ f a = .ok b := by
  cases x with
  | error e =>
    constructor
    · intro h; exact absurd h (by intro hh; cases hh)
    · rintro ⟨a, ha, -⟩; cases ha
  | ok a =>
    constructor
    · intro h; exact ⟨a, rfl, h⟩
    · rintro ⟨a2, ha, hf⟩; cases ha; exact hf

/-- Everything `from_specification` guarantees about a successfully
constructed leaf. -/
theorem from_spec_ok {name raw : String} {aq : Bool} {ac : Option AsCast}
    {c : Constraint}
    (h : Constraint.from_specification name raw aq ac = .ok c) :
    ∃ op_group, matchValuePattern raw = some (op_group, c.raw_value) ∧
      c.name = name ∧
      c.operator_handler = OPERATOR_TO_HANDLER c.operator ∧
      c.unit = none ∧
      c.value =
        (if aq then ConstraintValueType.quantity c.raw_value
         else match ac with
           | some cast => applyCast cast c.raw_value
           | none => ConstraintValueType.str c.raw_value) := by
  unfold Constraint.from_specification at h
  split at h
  · cases h
  next op_group value_text heq =>
    cases op_group with
    | some sign =>
      simp only at h
      split at h
      · cases h
      · cases h
        refine ⟨some sign, heq, rfl, rfl, rfl, ?_⟩
        cases aq <;> cases ac <;> rfl
    | none =>
      simp only at h
      cases h
      refine ⟨none, heq, rfl, rfl, rfl, ?_⟩
      cases aq <;> cases ac <;> rfl

/-- The lazy value group `.+?` never matches the empty string. -/
theorem findValue_ne_nil :
    ∀ {t : List Char} {v : List Char}, findValue t = some v → v ≠ [] := by
  intro t
  induction t with
  | nil => intro v h2; cases h2
  | cons c rest ih =>
    intro v h2
    rw [findValue] at h2
    split at h2
    · cases h2
    · split at h2
      · cases h2; simp
      · rcases Option.map_eq_some'.1 h2 with ⟨w, -, hw⟩
        cases hw; simp

theorem matchTailFrom_ne_nil :
    ∀ {i : Nat} {s v : List Char}, matchTailFrom i s = some v → v ≠ [] := by
  intro i
  induction i with
  | zero =>
    intro s v h2
    rw [matchTailFrom] at h2
    split at h2
    · cases h2; exact findValue_ne_nil (by assumption)
    · cases h2
  | succ j ih =>
    intro s v h2
    rw [matchTailFrom] at h2
    split at h2
    · cases h2; exact findValue_ne_nil (by assumption)
    · exact ih h2

theorem matchTail_ne_nil {s v : List Char} (h : matchTail s = some v) :
    v ≠ [] :=
  matchTailFrom_ne_nil h

theorem matchOperatorAlternatives_ne_nil :
    ∀ (ops : List Operator) {s : List Char} {og : Option String}
      {v : List Char},
      matchOperatorAlternatives ops s = some (og, v) → v ≠ [] := by
  intro ops
  induction ops with
  | nil =>
    intro s og v h2
    rw [matchOperatorAlternatives] at h2
    rcases Option.map_eq_some'.1 h2 with ⟨w, hw, hww⟩
    cases hww
    exact matchTail_ne_nil hw
  | cons o os ih =>
    intro s og v h2
    rw [matchOperatorAlternatives] at h2
    split at h2
    · split at h2
      · cases h2; exact matchTail_ne_nil (by assumption)
      · exact ih h2
    · exact ih h2

/-- The value group of a successful `VALUE_PATTERN` match is non-empty
(the lazy group is `.+?`). -/
theorem matchValuePattern_value_ne_empty {raw : String} {og : Option String}
    {v : String} (h : matchValuePattern raw = some (og, v)) : v ≠ "" := by
  unfold matchValuePattern at h
  rcases Option.map_eq_some'.1 h with ⟨⟨og2, v2⟩, hm, hpair⟩
  cases hpair
  have hne := matchOperatorAlternatives_ne_nil OPERATORS_IN_ORDER hm
  intro hempty
  apply hne
  have h3 : v2.asString.data = ("" : String).data := by rw [hempty]
  simpa [List.asString] using h3

/-!
## C1

The spec example claims `{"cpu": {"processors": ">=2"}}` parses to the leaf
`Constraint(cpu.processors, GTE, 2)`.  In the code, `VALUE_PATTERN` joins
the operator signs in enum definition order, placing `>` *before* `>=` in
the ordered alternation, so `">=2"` matches operator `>` and hands the
remaining text `"=2"` to the unit parser: the sign `>=` (and likewise `<=`)
can never be produced by the pattern even though `Operator.GTE` and its
handler exist exactly for it.  The parse therefore yields operator `GT`
with value text `"=2"`, not `GTE` with value `2`.
-/

/-- C1: evaluating the parser at the claimed input.  The result is one leaf
named `cpu.processors` - the claim's "no residual `And`" part holds - but
its operator is `GT`, not `GTE`, and the text passed to `UNITS` is `"=2"`,
not `"2"`. -/
theorem c1_cpu_processors_parse_divergence :
    parse_hw_requirements (.dict [("cpu", .dict [("processors", .str ">=2")])]) =
      .ok (.leaf
        { name := "cpu.processors"
          operator := Operator.GT
          operator_handler := OperatorHandlerType.op_gt
          value := ConstraintValueType.quantity "=2"
          raw_value := "=2"
          unit := none }) ∧
    Operator.GT ≠ Operator.GTE := by
  constructor
  · rw [parse_hw_requirements, _parse_block]
    rfl
  · decide

/-!
## C4

The claim says the leaf carries `raw_value` *unmodified*.  The source
reassigns `raw_value = groups['value']` before building the leaf, so the
stored field is the `value` capture group - the input with the operator
token and the surrounding whitespace stripped - not the original string.
-/

/-- C4 counterexample: for the accepted raw value `"== 2"` the constructed
leaf stores `raw_value = "2"`, not the input `"== 2"`. -/
theorem c4_counterexample_raw_value_modified :
    Constraint.from_specification "memory" "== 2" true none =
      .ok
        { name := "memory"
          operator := Operator.EQ
          operator_handler := OperatorHandlerType.op_eq
          value := ConstraintValueType.quantity "2"
          raw_value := "2"
          unit := none } ∧
    ("2" : String) ≠ "== 2" := by
  exact ⟨rfl, by decide⟩

/-- C4 amended: the leaf's `raw_value` equals the `value` capture group of
`VALUE_PATTERN` applied to the input (operator token and surrounding
whitespace stripped), for every name and accepted raw value. -/
theorem c4_raw_value_is_value_group {name raw : String} {aq : Bool}
    {ac : Option AsCast} {c : Constraint}
    (h : Constraint.from_specification name raw aq ac = .ok c) :
    ∃ op_group, matchValuePattern raw = some (op_group, c.raw_value) := by
  obtain ⟨og, hm, -⟩ := from_spec_ok h
  exact ⟨og, hm⟩

/-- Witness for C4's amended theorem at the counterexample input. -/
theorem c4_witness :
    ∃ op_group, matchValuePattern "== 2" = some (op_group, "2") := by
  exact @c4_raw_value_is_value_group "memory" "== 2" true none
    ⟨"memory", Operator.EQ, OperatorHandlerType.op_eq,
      ConstraintValueType.quantity "2", "2", none⟩ rfl

/-!
## C5

The claim says a raw value consisting only of an operator token (e.g. ">=")
raises `ParseError`.  It does not: the ordered alternation matches the sign
`>` and the lazy value group takes the remaining `"="`, so a leaf with
operator `GT` and value text `"="` is returned.  `ParseError` is raised
only when `VALUE_PATTERN` finds no non-empty value at all (e.g. the empty
string).
-/

/-- C5 counterexample: at the claim's example input `">="`,
`from_specification` returns a leaf (operator `GT`, value text `"="`)
instead of raising `ParseError`. -/
theorem c5_counterexample_no_parse_error :
    Constraint.from_specification "memory" ">=" true none =
      .ok ⟨"memory", Operator.GT, OperatorHandlerType.op_gt,
        ConstraintValueType.quantity "=", "=", none⟩ := rfl

/-- C5 amended: for every constraint name, the raw value `">="` (an
operator token alone) produces a leaf with operator `GT` and stored value
text `"="`, while the raw value that actually fails the grammar - the empty
string - raises `ParseError` carrying the constraint name and the raw
text. -/
theorem c5_amended_operator_token_alone (name : String) (aq : Bool)
    (ac : Option AsCast) :
    (∃ c, Constraint.from_specification name ">=" aq ac = .ok c ∧
       c.operator = Operator.GT ∧ c.raw_value = "=") ∧
    Constraint.from_specification name "" aq ac =
      .error (.parseError name "") := by
  refine ⟨⟨_, rfl, rfl, rfl⟩, rfl⟩

/-!
## C8

`operator_handler` always equals the `OPERATOR_TO_HANDLER` entry for
`operator`: right after `from_specification`, and after any
`change_operator`, which replaces both fields together.
-/

/-- C8: the handler/operator consistency invariant holds after
construction and after every `change_operator` rewrite. -/
theorem c8_operator_handler_consistent :
    (∀ (name raw : String) (aq : Bool) (ac : Option AsCast) (c : Constraint),
       Constraint.from_specification name raw aq ac = .ok c →
       c.operator_handler = OPERATOR_TO_HANDLER c.operator) ∧
    (∀ (c : Constraint) (op : Operator),
       (c.change_operator op).operator = op ∧
       (c.change_operator op).operator_handler =
         OPERATOR_TO_HANDLER ((c.change_operator op).operator)) := by
  constructor
  · intro name raw aq ac c h
    obtain ⟨-, -, -, hh, -, -⟩ := from_spec_ok h
    exact hh
  · intro c op
    exact ⟨rfl, rfl⟩

/-- Witness for C8 at a concrete leaf and a concrete rewrite. -/
theorem c8_witness :
    (Constraint.operator_handler
        ⟨"memory", Operator.EQ, OperatorHandlerType.op_eq,
          ConstraintValueType.quantity "2", "2", none⟩ =
      OPERATOR_TO_HANDLER
        (Constraint.operator
          ⟨"memory", Operator.EQ, OperatorHandlerType.op_eq,
            ConstraintValueType.quantity "2", "2", none⟩)) ∧
    ((Constraint.change_operator
        ⟨"boot.method", Operator.EQ, OperatorHandlerType.op_eq,
          ConstraintValueType.str "bios", "bios", none⟩
        Operator.CONTAINS).operator = Operator.CONTAINS ∧
      (Constraint.change_operator
        ⟨"boot.method", Operator.EQ, OperatorHandlerType.op_eq,
          ConstraintValueType.str "bios", "bios", none⟩
        Operator.CONTAINS).operator_handler =
        OPERATOR_TO_HANDLER
          ((Constraint.change_operator
            ⟨"boot.method", Operator.EQ, OperatorHandlerType.op_eq,
              ConstraintValueType.str "bios", "bios", none⟩
            Operator.CONTAINS).operator)) :=
  ⟨c8_operator_handler_consistent.1 "memory" "2" true none
      ⟨"memory", Operator.EQ, OperatorHandlerType.op_eq,
        ConstraintValueType.quantity "2", "2", none⟩ rfl,
    c8_operator_handler_consistent.2
      ⟨"boot.method", Operator.EQ, OperatorHandlerType.op_eq,
        ConstraintValueType.str "bios", "bios", none⟩
      Operator.CONTAINS⟩

/-!
## C2 and C6 - the span-enumeration algorithm
-/

/-- The compound-children span lists collected by `And.spans` are exactly
the spans of the `isinstance`-filtered compound children, in order. -/
theorem compoundSpans_eq (cs : List ConstraintTree) :
    compoundSpans cs =
      (cs.filter (fun c => isCompound c)).map (fun c => spans c []) := by
  induction cs with
  | nil => simp [compoundSpans]
  | cons c rest ih =>
    rw [compoundSpans]
    by_cases h : isCompound c
    · simp [h, List.filter, ih]
    · simp [h, List.filter, ih]

/-- The spans collected by `Or.spans`, before prefixing, are the
concatenation of its children's spans in order. -/
theorem orSpans_eq (cs : List ConstraintTree) :
    orSpans cs = cs.flatMap (fun c => spans c []) := by
  induction cs with
  | nil => simp [orSpans]
  | cons c rest ih => rw [orSpans]; simp [ih]

/-- C2: for every `And` node, `spans(prefix)` is the cartesian product of
the compound children's span lists, each combination flattened and placed
between the prefix and the simple (non-compound) children; in particular
`And([Or([A,B]), C]).spans()` yields exactly `[A,C]` then `[B,C]`. -/
theorem c2_and_spans :
    (∀ (cs members : List ConstraintTree),
       spans (.and cs) members =
         (listProduct
             ((cs.filter (fun c => isCompound c)).map (fun c => spans c []))).map
           (fun combination =>
             members ++ combination.flatten ++
               cs.filter (fun c => !(isCompound c)))) ∧
    (∀ A B C : Constraint,
       spans (.and [.or [.leaf A, .leaf B], .leaf C]) [] =
         [[.leaf A, .leaf C], [.leaf B, .leaf C]]) := by
  constructor
  · intro cs members
    rw [spans, compoundSpans_eq]
  · intro A B C
    simp [spans, compoundSpans, orSpans, listProduct, isCompound]

/-- C6: for every `Or` node, `spans(prefix)` yields, child by child in
order, every span the child produces with the prefix prepended - no
product, no merging; a leaf's `spans(prefix)` is the single span
`prefix + [itself]`; in particular `Or([A, B]).spans()` yields exactly
`[A]` then `[B]`. -/
theorem c6_or_spans :
    (∀ (cs members : List ConstraintTree),
       spans (.or cs) members =
         cs.flatMap (fun c => (spans c []).map (fun span => members ++ span))) ∧
    (∀ (c : Constraint) (members : List ConstraintTree),
       spans (.leaf c) members = [members ++ [.leaf c]]) ∧
    (∀ A B : Constraint,
       spans (.or [.leaf A, .leaf B]) [] = [[.leaf A], [.leaf B]]) := by
  refine ⟨?_, ?_, ?_⟩
  · intro cs members
    rw [spans, orSpans_eq]
    induction cs with
    | nil => simp
    | cons c rest ih => simp_all
  · intro c members
    rw [spans]
  · intro A B
    simp [spans, orSpans]

/-!
## C7 - `uses_constraint`
-/

/-- Under `any(...)`'s short-circuit evaluation, when every child's query
is defined, the compound query answers `True` exactly when some child
answers `True`. -/
theorem usesAny_some_true_iff {cs : List ConstraintTree} {n : String}
    (h : ∀ c ∈ cs, (uses_constraint c n).isSome) :
    usesAny cs n = some true ↔ ∃ c ∈ cs, uses_constraint c n = some true := by
  induction cs with
  | nil => simp [usesAny]
  | cons c rest ih =>
    have hc := h c (by simp)
    obtain ⟨b, hx⟩ := Option.isSome_iff_exists.1 hc
    rw [usesAny, hx]
    cases b
    · show usesAny rest n = some true ↔
        ∃ c2 ∈ c :: rest, uses_constraint c2 n = some true
      rw [ih (fun c2 hc2 => h c2 (List.mem_cons_of_mem _ hc2))]
      constructor
      · rintro ⟨c2, hm, ht⟩
        exact ⟨c2, List.mem_cons_of_mem _ hm, ht⟩
      · rintro ⟨c2, hm, ht⟩
        rcases List.mem_cons.1 hm with rfl | hm2
        · rw [hx] at ht; cases ht
        · exact ⟨c2, hm2, ht⟩
    · show some true = some true ↔
        ∃ c2 ∈ c :: rest, uses_constraint c2 n = some true
      exact ⟨fun _ => ⟨c, by simp, hx⟩, fun _ => rfl⟩

/-- C7: `uses_constraint` on compound nodes is independent of the reducer
(`And` and `Or` answer identically); when every child query is defined it
answers `True` iff some child recursively answers `True`; a leaf answers by
comparing the `property` component of its decomposed name; and on the
claim's example tree, `"memory"` is found and `"disk"` is not. -/
theorem c7_uses_constraint :
    (∀ (cs : List ConstraintTree) (n : String),
       uses_constraint (.and cs) n = uses_constraint (.or cs) n) ∧
    (∀ (cs : List ConstraintTree) (n : String),
       (∀ c ∈ cs, (uses_constraint c n).isSome) →
       (uses_constraint (.and cs) n = some true ↔
         ∃ c ∈ cs, uses_constraint c n = some true)) ∧
    (∀ (c : Constraint) (n : String),
       uses_constraint (.leaf c) n =
         (c.expand_name).map (fun comps => decide (comps.property = n))) ∧
    (uses_constraint
        (.and [.leaf ⟨"cpu.cores", .EQ, .op_eq, .str "", "", none⟩,
          .or [.leaf ⟨"memory", .EQ, .op_eq, .str "", "", none⟩]])
        "memory" = some true ∧
      uses_constraint
        (.and [.leaf ⟨"cpu.cores", .EQ, .op_eq, .str "", "", none⟩,
          .or [.leaf ⟨"memory", .EQ, .op_eq, .str "", "", none⟩]])
        "disk" = some false) := by
  refine ⟨?_, ?_, ?_, ?_, ?_⟩
  · intro cs n
    rw [uses_constraint, uses_constraint]
  · intro cs n h
    rw [uses_constraint]
    exact usesAny_some_true_iff h
  · intro c n
    rw [uses_constraint]
    rfl
  · simp [uses_constraint, usesAny, Constraint.uses_constraint,
      Constraint.expand_name]
    decide
  · simp [uses_constraint, usesAny, Constraint.uses_constraint,
      Constraint.expand_name]
    decide

/-- Witness for C7 at a concrete compound node, its definedness hypothesis
discharged by evaluation. -/
theorem c7_witness :
    uses_constraint
        (.and [.leaf ⟨"memory", .EQ, .op_eq, .str "", "", none⟩]) "memory" =
        some true ↔
      ∃ c ∈ [ConstraintTree.leaf ⟨"memory", .EQ, .op_eq, .str "", "", none⟩],
        uses_constraint c "memory" = some true :=
  c7_uses_constraint.2.1
    [ConstraintTree.leaf ⟨"memory", .EQ, .op_eq, .str "", "", none⟩] "memory"
    (by
      intro c hc
      rw [List.mem_singleton] at hc
      subst hc
      simp [uses_constraint, Constraint.uses_constraint,
        Constraint.expand_name]
      decide)

/-!
## C3 - the two disk spec forms
-/

/-- C3 counterexample: the single-mapping disk form and the singleton-list
disk form do *not* return the same tree.  `_parse_disk` itself is not
`@ungroupify`-decorated, so the legacy mapping form gets its one-child
`And` group unwrapped by `_parse_disks`, yielding a bare leaf, while the
list form keeps one residual `And` wrapper. -/
theorem c3_counterexample_forms_differ :
    parse_hw_requirements (.dict [("disk", .dict [("size", .str ">=20 GiB")])]) ≠
      parse_hw_requirements
        (.dict [("disk", .list [.dict [("size", .str ">=20 GiB")]])]) := by
  have h1 : parse_hw_requirements
      (.dict [("disk", .dict [("size", .str ">=20 GiB")])]) =
      .ok (.leaf ⟨"disk[0].size", Operator.GT, OperatorHandlerType.op_gt,
        ConstraintValueType.quantity "=20 GiB", "=20 GiB", none⟩) := by
    rw [parse_hw_requirements, _parse_block]
    rfl
  have h2 : parse_hw_requirements
      (.dict [("disk", .list [.dict [("size", .str ">=20 GiB")]])]) =
      .ok (.and [.leaf ⟨"disk[0].size", Operator.GT, OperatorHandlerType.op_gt,
        ConstraintValueType.quantity "=20 GiB", "=20 GiB", none⟩]) := by
    rw [parse_hw_requirements, _parse_block]
    rfl
  intro h
  rw [h1, h2] at h
  simp at h

/-- C3 amended: both forms produce a single constraint named
`disk[0].size` with identical contents, but the mapping form returns the
bare leaf while the list form returns it wrapped in one `And` node. -/
theorem c3_amended_same_leaf_extra_and :
    parse_hw_requirements (.dict [("disk", .dict [("size", .str ">=20 GiB")])]) =
      .ok (.leaf ⟨"disk[0].size", Operator.GT, OperatorHandlerType.op_gt,
        ConstraintValueType.quantity "=20 GiB", "=20 GiB", none⟩) ∧
    parse_hw_requirements
        (.dict [("disk", .list [.dict [("size", .str ">=20 GiB")]])]) =
      .ok (.and [.leaf ⟨"disk[0].size", Operator.GT, OperatorHandlerType.op_gt,
        ConstraintValueType.quantity "=20 GiB", "=20 GiB", none⟩]) := by
  constructor
  · rw [parse_hw_requirements, _parse_block]
    rfl
  · rw [parse_hw_requirements, _parse_block]
    rfl

/-!
## C10 - the `bool` cast on virtualization flags
-/

/-- A non-empty string is not `isEmpty`. -/
theorem String_isEmpty_false {s : String} (h : s ≠ "") : s.isEmpty = false := by
  rw [String.isEmpty]
  rw [beq_eq_false_iff_ne]
  intro he
  cases s with
  | mk data =>
    cases data with
    | nil => exact h rfl
    | cons a b =>
      have hb := congrArg String.Pos.byteIdx he
      simp [String.endPos, String.utf8ByteSize] at hb
      have := Char.utf8Size_pos a
      omega

/-- A spec without `and`/`or` keys is parsed by the generic sub-parser. -/
theorem parse_block_eq_generic (spec : Spec) (h1 : spec.find "and" = none)
    (h2 : spec.find "or" = none) :
    _parse_block spec = _parse_generic_spec spec := by
  rw [_parse_block]
  split
  · next v hv => rw [h1] at hv; cases hv
  · split
    · next v hv => rw [h2] at hv; cases hv
    · rfl

/-- Evaluation of `_parse_virtualization` on a lone `is-virtualized` key:
one leaf built by `from_specification` with the `bool` cast. -/
theorem virt_eval_is_virtualized (v : Spec) :
    _parse_virtualization (.dict [("is-virtualized", v)]) =
      (Constraint.from_specification "virtualization.is_virtualized" (pyStr v)
        false (some AsCast.toBool)).map (fun c => ConstraintTree.leaf c) := by
  simp only [_parse_virtualization, _hw_key_bool, _hw_key_direct,
    show Spec.find (.dict [("is-virtualized", v)]) "is-virtualized" = some v from rfl,
    show Spec.find (.dict [("is-virtualized", v)]) "is-supported" = none from rfl,
    show Spec.find (.dict [("is-virtualized", v)]) "hypervisor" = none from rfl]
  cases hfs : Constraint.from_specification "virtualization.is_virtualized"
      (pyStr v) false (some AsCast.toBool) with
  | error e => rfl
  | ok c => rfl

/-- Evaluation of `_parse_virtualization` on a lone `is-supported` key. -/
theorem virt_eval_is_supported (v : Spec) :
    _parse_virtualization (.dict [("is-supported", v)]) =
      (Constraint.from_specification "virtualization.is_supported" (pyStr v)
        false (some AsCast.toBool)).map (fun c => ConstraintTree.leaf c) := by
  simp only [_parse_virtualization, _hw_key_bool, _hw_key_direct,
    show Spec.find (.dict [("is-supported", v)]) "is-virtualized" = none from rfl,
    show Spec.find (.dict [("is-supported", v)]) "is-supported" = some v from rfl,
    show Spec.find (.dict [("is-supported", v)]) "hypervisor" = none from rfl]
  cases hfs : Constraint.from_specification "virtualization.is_supported"
      (pyStr v) false (some AsCast.toBool) with
  | error e => rfl
  | ok c => rfl

/-- Evaluation of the generic parser on a spec holding only a
`virtualization` block: the single sub-result is unwrapped. -/
theorem generic_eval_virtualization (inner : Spec)
    (x : Except TmtError ConstraintTree)
    (hx : _parse_virtualization inner = x) :
    _parse_generic_spec (.dict [("virtualization", inner)]) =
      x.bind (fun t => .ok (ungroupify (.and [t]))) := by
  simp only [_parse_generic_spec, _hw_key_direct, _hw_key_sub,
    _hw_key_quantity,
    show Spec.find (.dict [("virtualization", inner)]) "arch" = none from rfl,
    show Spec.find (.dict [("virtualization", inner)]) "boot" = none from rfl,
    show Spec.find (.dict [("virtualization", inner)]) "cpu" = none from rfl,
    show Spec.find (.dict [("virtualization", inner)]) "memory" = none from rfl,
    show Spec.find (.dict [("virtualization", inner)]) "disk" = none from rfl,
    show Spec.find (.dict [("virtualization", inner)]) "network" = none from rfl,
    show Spec.find (.dict [("virtualization", inner)]) "hostname" = none from rfl,
    show Spec.find (.dict [("virtualization", inner)]) "virtualization" = some inner from rfl,
    hx]
  cases x with
  | error e => rfl
  | ok t => rfl

/-- C10: whenever a `virtualization: is-virtualized` (or `is-supported`)
spec parses successfully, the produced leaf's value is the boolean `True` -
the cast is Python's `bool` applied to the (always non-empty) value text -
including for the strings `"false"` and `"False"`. -/
theorem c10_bool_cast_always_true :
    (∀ (v : Spec) (t : ConstraintTree),
       parse_hw_requirements
           (.dict [("virtualization", .dict [("is-virtualized", v)])]) = .ok t →
       ∃ c : Constraint, t = .leaf c ∧
         c.name = "virtualization.is_virtualized" ∧
         c.value = .bool true) ∧
    (∀ (v : Spec) (t : ConstraintTree),
       parse_hw_requirements
           (.dict [("virtualization", .dict [("is-supported", v)])]) = .ok t →
       ∃ c : Constraint, t = .leaf c ∧
         c.name = "virtualization.is_supported" ∧
         c.value = .bool true) ∧
    parse_hw_requirements
        (.dict [("virtualization", .dict [("is-virtualized", .str "false")])]) =
      .ok (.leaf ⟨"virtualization.is_virtualized", Operator.EQ,
        OperatorHandlerType.op_eq, ConstraintValueType.bool true, "false",
        none⟩) ∧
    parse_hw_requirements
        (.dict [("virtualization", .dict [("is-virtualized", .str "False")])]) =
      .ok (.leaf ⟨"virtualization.is_virtualized", Operator.EQ,
        OperatorHandlerType.op_eq, ConstraintValueType.bool true, "False",
        none⟩) := by
  have main : ∀ (nm key : String) (v : Spec) (t : ConstraintTree),
      _parse_virtualization (.dict [(key, v)]) =
        (Constraint.from_specification nm (pyStr v) false
          (some AsCast.toBool)).map (fun c => ConstraintTree.leaf c) →
      parse_hw_requirements (.dict [("virtualization", .dict [(key, v)])]) = .ok t →
      ∃ c : Constraint, t = .leaf c ∧ c.name = nm ∧ c.value = .bool true := by
    intro nm key v t hval h
    rw [parse_hw_requirements,
      parse_block_eq_generic (.dict [("virtualization", .dict [(key, v)])]) rfl rfl,
      generic_eval_virtualization (.dict [(key, v)]) _ hval] at h
    cases hfs : Constraint.from_specification nm (pyStr v) false
        (some AsCast.toBool) with
    | error e => rw [hfs] at h; cases h
    | ok c =>
      rw [hfs] at h
      simp only [Except.map, Except.bind, ungroupify] at h
      obtain ⟨og, hm, hname, -, -, hvalue⟩ := from_spec_ok hfs
      refine ⟨c, ?_, hname, ?_⟩
      · cases h; rfl
      · have hne := matchValuePattern_value_ne_empty hm
        simp only [Bool.false_eq_true, if_false, applyCast] at hvalue
        rw [hvalue, String_isEmpty_false hne]
        rfl
  refine ⟨?_, ?_, ?_, ?_⟩
  · intro v t h
    exact main "virtualization.is_virtualized" "is-virtualized" v t
      (virt_eval_is_virtualized v) h
  · intro v t h
    exact main "virtualization.is_supported" "is-supported" v t
      (virt_eval_is_supported v) h
  · rw [parse_hw_requirements, _parse_block]
    rfl
  · rw [parse_hw_requirements, _parse_block]
    rfl

/-- Witness for C10 at the concrete value `"false"`. -/
theorem c10_witness :
    ∃ c : Constraint,
      (ConstraintTree.leaf ⟨"virtualization.is_virtualized", Operator.EQ,
          OperatorHandlerType.op_eq, ConstraintValueType.bool true, "false",
          none⟩ : ConstraintTree) = .leaf c ∧
        c.name = "virtualization.is_virtualized" ∧
        c.value = .bool true :=
  c10_bool_cast_always_true.1 (.str "false") _
    (by rw [parse_hw_requirements, _parse_block]; rfl)

/-!
## C9 - every internally generated name satisfies the name grammar
-/

/-- All leaves of a tree have names accepted by
`PROPERTY_EXPAND_PATTERN`, i.e. `expand_name`'s assertion cannot fire
anywhere in the tree. -/
inductive GoodTree : ConstraintTree → Prop
| leaf {c : Constraint} :
    (propertyExpandMatch c.name).isSome → GoodTree (.leaf c)
| and {cs : List ConstraintTree} :
    (∀ c ∈ cs, GoodTree c) → GoodTree (.and cs)
| or {cs : List ConstraintTree} :
    (∀ c ∈ cs, GoodTree c) → GoodTree (.or cs)

theorem goodTree_ungroupify {t : ConstraintTree} (h : GoodTree t) :
    GoodTree (ungroupify t) := by
  cases h with
  | leaf hc => exact .leaf hc
  | and hcs =>
    rename_i cs
    match cs, hcs with
    | [], hcs => exact .and hcs
    | [c], hcs => exact hcs c (by simp)
    | c1 :: c2 :: rest, hcs => exact .and hcs
  | or hcs =>
    rename_i cs
    match cs, hcs with
    | [], hcs => exact .or hcs
    | [c], hcs => exact hcs c (by simp)
    | c1 :: c2 :: rest, hcs => exact .or hcs

/-- Elements of a successful `mapExcept` all come from successful
applications of the body. -/
theorem mapExcept_ok_mem {α β : Type} {f : α → Except TmtError β}
    {xs : List α} {ys : List β} (h : mapExcept f xs = .ok ys) :
    ∀ y ∈ ys, ∃ x ∈ xs, f x = .ok y := by
  induction xs generalizing ys with
  | nil =>
    rw [mapExcept] at h
    cases h
    intro y hy
    cases hy
  | cons x rest ih =>
    rw [mapExcept] at h
    rw [exceptBind_ok_iff] at h
    obtain ⟨y1, hy1, h⟩ := h
    rw [exceptBind_ok_iff] at h
    obtain ⟨ys1, hys1, h⟩ := h
    cases h
    intro y hy
    rcases List.mem_cons.1 hy with rfl | hmem
    · exact ⟨x, by simp, hy1⟩
    · obtain ⟨x2, hx2, hfx2⟩ := ih hys1 y hmem
      exact ⟨x2, List.mem_cons_of_mem _ hx2, hfx2⟩

/-- A name whose first character is in `[a-z_+]` is accepted by
`PROPERTY_EXPAND_PATTERN` (only an empty leading name run can make the
prefix match fail). -/
theorem propertyExpandMatch_isSome_head {s : String} {c : Char}
    {rest : List Char} (h : s.toList = c :: rest) (hc : isNameChar c) :
    (propertyExpandMatch s).isSome := by
  rw [propertyExpandMatch]
  simp only [h, List.takeWhile]
  rw [hc]
  simp

/-- Names of the shape `prefixWord ++ anything` where the prefix word
starts with a lowercase letter are accepted; instantiated for the indexed
`disk[i].size` and `network[i].type` names below. -/
theorem propertyExpandMatch_isSome_append {a b : String} {c : Char}
    {rest : List Char} (h : a.toList = c :: rest) (hc : isNameChar c) :
    (propertyExpandMatch (a ++ b)).isSome := by
  have h2 : (a ++ b).toList = c :: (rest ++ b.toList) := by
    show (a ++ b).data = c :: (rest ++ b.data)
    rw [String.data_append, show a.data = c :: rest from h]
    rfl
  exact propertyExpandMatch_isSome_head h2 hc

/-- Indexed disk names are accepted by the name grammar whatever the
rendered index text. -/
theorem propertyExpandMatch_disk (x y : String) :
    (propertyExpandMatch ("disk[" ++ x ++ "]." ++ y)).isSome := by
  have h : ("disk[" ++ x ++ "]." ++ y).toList =
      'd' :: ("isk[" ++ x ++ "]." ++ y).toList := by
    show ((("disk[" ++ x) ++ "].") ++ y).data =
      'd' :: ((("isk[" ++ x) ++ "].") ++ y).data
    simp [String.data_append]
  exact propertyExpandMatch_isSome_head h (by decide)

/-- Indexed network names are accepted by the name grammar. -/
theorem propertyExpandMatch_network (x y : String) :
    (propertyExpandMatch ("network[" ++ x ++ "]." ++ y)).isSome := by
  have h : ("network[" ++ x ++ "]." ++ y).toList =
      'n' :: ("etwork[" ++ x ++ "]." ++ y).toList := by
    show ((("network[" ++ x) ++ "].") ++ y).data =
      'n' :: ((("etwork[" ++ x) ++ "].") ++ y).data
    simp [String.data_append]
  exact propertyExpandMatch_isSome_head h (by decide)

/-- The leaves produced by a `constraintsForKeys` comprehension are good
whenever every successful `build` yields an accepted name. -/
theorem constraintsForKeys_good {spec : Spec} {keys : List String}
    {build : String → Spec → Except TmtError Constraint}
    (hb : ∀ k ∈ keys, ∀ v c, build k v = .ok c →
      (propertyExpandMatch c.name).isSome) :
    ∀ {cs : List ConstraintTree},
      constraintsForKeys spec keys build = .ok cs → ∀ t ∈ cs, GoodTree t := by
  intro cs h t ht
  obtain ⟨k, hk, hfk⟩ := mapExcept_ok_mem h t ht
  have hkk : k ∈ keys := List.mem_of_mem_filter hk
  split at hfk
  · next v hv =>
    cases hbv : build k v with
    | error e => rw [hbv] at hfk; cases hfk
    | ok c =>
      rw [hbv] at hfk
      simp only [Except.map] at hfk
      cases hfk
      exact .leaf (hb k hkk v c hbv)
  · cases hfk

theorem _hw_key_direct_good {spec : Spec} {key nm : String}
    (hnm : (propertyExpandMatch nm).isSome) :
    ∀ {cs : List ConstraintTree}, _hw_key_direct spec key nm = .ok cs →
      ∀ c ∈ cs, GoodTree c := by
  intro cs h c hc
  rw [_hw_key_direct] at h
  split at h
  · next v hv =>
    rw [exceptBind_ok_iff] at h
    obtain ⟨raw, hraw, h⟩ := h
    rw [exceptBind_ok_iff] at h
    obtain ⟨c0, hc0, h⟩ := h
    cases h
    rw [List.mem_singleton] at hc
    subst hc
    obtain ⟨-, -, hname, -, -, -⟩ := from_spec_ok hc0
    exact .leaf (by rw [hname]; exact hnm)
  · cases h
    cases hc

theorem _hw_key_bool_good {spec : Spec} {key nm : String}
    (hnm : (propertyExpandMatch nm).isSome) :
    ∀ {cs : List ConstraintTree}, _hw_key_bool spec key nm = .ok cs →
      ∀ c ∈ cs, GoodTree c := by
  intro cs h c hc
  rw [_hw_key_bool] at h
  split at h
  · next v hv =>
    rw [exceptBind_ok_iff] at h
    obtain ⟨c0, hc0, h⟩ := h
    cases h
    rw [List.mem_singleton] at hc
    subst hc
    obtain ⟨-, -, hname, -, -, -⟩ := from_spec_ok hc0
    exact .leaf (by rw [hname]; exact hnm)
  · cases h
    cases hc

theorem _hw_key_quantity_good {spec : Spec} {key nm : String}
    (hnm : (propertyExpandMatch nm).isSome) :
    ∀ {cs : List ConstraintTree}, _hw_key_quantity spec key nm = .ok cs →
      ∀ c ∈ cs, GoodTree c := by
  intro cs h c hc
  rw [_hw_key_quantity] at h
  split at h
  · next v hv =>
    rw [exceptBind_ok_iff] at h
    obtain ⟨c0, hc0, h⟩ := h
    cases h
    rw [List.mem_singleton] at hc
    subst hc
    obtain ⟨-, -, hname, -, -, -⟩ := from_spec_ok hc0
    exact .leaf (by rw [hname]; exact hnm)
  · cases h
    cases hc

theorem _hw_key_sub_good {spec : Spec} {key : String}
    {sub : Spec → Except TmtError ConstraintTree}
    (hsub : ∀ v t, sub v = .ok t → GoodTree t) :
    ∀ {cs : List ConstraintTree}, _hw_key_sub spec key sub = .ok cs →
      ∀ c ∈ cs, GoodTree c := by
  intro cs h c hc
  rw [_hw_key_sub] at h
  split at h
  · next v hv =>
    rw [exceptBind_ok_iff] at h
    obtain ⟨t0, ht0, h⟩ := h
    cases h
    rw [List.mem_singleton] at hc
    subst hc
    exact hsub v c ht0
  · cases h
    cases hc

theorem _hw_key_boot_method_good {spec : Spec} :
    ∀ {cs : List ConstraintTree}, _hw_key_boot_method spec = .ok cs →
      ∀ c ∈ cs, GoodTree c := by
  intro cs h c hc
  rw [_hw_key_boot_method] at h
  split at h
  · next v hv =>
    rw [exceptBind_ok_iff] at h
    obtain ⟨raw, hraw, h⟩ := h
    rw [exceptBind_ok_iff] at h
    obtain ⟨c0, hc0, h⟩ := h
    cases h
    rw [List.mem_singleton] at hc
    subst hc
    apply GoodTree.leaf
    obtain ⟨-, -, hname, -, -, -⟩ := from_spec_ok hc0
    have hn2 :
        (if c0.operator = Operator.EQ then
            c0.change_operator Operator.CONTAINS
          else if c0.operator = Operator.NEQ then
            c0.change_operator Operator.NOTCONTAINS
          else c0).name = c0.name := by
      split
      · rfl
      · split
        · rfl
        · rfl
    rw [hn2, hname]
    decide
  · cases h
    cases hc

theorem _parse_boot_good (spec : Spec) :
    ∀ t, _parse_boot spec = .ok t → GoodTree t := by
  intro t h
  rw [_parse_boot] at h
  rw [exceptBind_ok_iff] at h
  obtain ⟨cs, hcs, hp⟩ := h
  cases hp
  exact goodTree_ungroupify (.and (_hw_key_boot_method_good hcs))

theorem _parse_virtualization_good (spec : Spec) :
    ∀ t, _parse_virtualization spec = .ok t → GoodTree t := by
  intro t h
  rw [_parse_virtualization] at h
  rw [exceptBind_ok_iff] at h
  obtain ⟨c1, h1, h⟩ := h
  rw [exceptBind_ok_iff] at h
  obtain ⟨c2, h2, h⟩ := h
  rw [exceptBind_ok_iff] at h
  obtain ⟨c3, h3, h⟩ := h
  cases h
  apply goodTree_ungroupify
  apply GoodTree.and
  intro c hc
  simp only [List.mem_append] at hc
  rcases hc with (hc | hc) | hc
  · exact _hw_key_bool_good (by decide) h1 c hc
  · exact _hw_key_bool_good (by decide) h2 c hc
  · exact _hw_key_direct_good (by decide) h3 c hc

theorem _parse_cpu_good (spec : Spec) :
    ∀ t, _parse_cpu spec = .ok t → GoodTree t := by
  intro t h
  rw [_parse_cpu] at h
  rw [exceptBind_ok_iff] at h
  obtain ⟨qs, hqs, h⟩ := h
  rw [exceptBind_ok_iff] at h
  obtain ⟨ms, hms, h⟩ := h
  cases h
  apply goodTree_ungroupify
  apply GoodTree.and
  have gq : ∀ t2 ∈ qs, GoodTree t2 := by
    refine constraintsForKeys_good ?_ hqs
    intro k hk v c hbc
    obtain ⟨-, -, hname, -, -, -⟩ := from_spec_ok hbc
    rw [hname]
    simp only [List.mem_cons, List.not_mem_nil, or_false] at hk
    rcases hk with rfl | rfl | rfl | rfl
    · decide
    · decide
    · decide
    · decide
  have gm : ∀ t2 ∈ ms, GoodTree t2 := by
    refine constraintsForKeys_good ?_ hms
    intro k hk v c hbc
    obtain ⟨-, -, hname, -, -, -⟩ := from_spec_ok hbc
    rw [hname]
    simp only [List.mem_cons, List.not_mem_nil, or_false] at hk
    subst hk
    decide
  intro c hc
  rcases List.mem_append.1 hc with hc | hc
  · exact gq c hc
  · exact gm c hc

theorem _parse_disk_good (spec : Spec) (disk_index : Nat) :
    ∀ t, _parse_disk spec disk_index = .ok t → GoodTree t := by
  intro t h
  rw [_parse_disk] at h
  rw [exceptBind_ok_iff] at h
  obtain ⟨cs, hcs, h⟩ := h
  cases h
  apply GoodTree.and
  refine constraintsForKeys_good ?_ hcs
  intro k hk v c hbc
  obtain ⟨-, -, hname, -, -, -⟩ := from_spec_ok hbc
  rw [hname]
  exact propertyExpandMatch_disk (toString disk_index) k

theorem _parse_disks_good (spec : Spec) :
    ∀ t, _parse_disks spec = .ok t → GoodTree t := by
  intro t h
  cases spec with
  | dict kvs =>
    rw [_parse_disks] at h
    rw [exceptBind_ok_iff] at h
    obtain ⟨t0, ht0, h⟩ := h
    cases h
    exact goodTree_ungroupify (_parse_disk_good _ 0 t0 ht0)
  | list disk_specs =>
    rw [_parse_disks] at h
    rw [exceptBind_ok_iff] at h
    obtain ⟨cs, hcs, h⟩ := h
    cases h
    apply goodTree_ungroupify
    apply GoodTree.and
    intro c hc
    obtain ⟨p, -, hp⟩ := mapExcept_ok_mem hcs c hc
    exact _parse_disk_good p.2 p.1 c hp
  | str s => simp [_parse_disks] at h
  | int i => simp [_parse_disks] at h
  | bool b => simp [_parse_disks] at h

theorem _parse_network_good (spec : Spec) (network_index : Nat) :
    ∀ t, _parse_network spec network_index = .ok t → GoodTree t := by
  intro t h
  rw [_parse_network] at h
  rw [exceptBind_ok_iff] at h
  obtain ⟨cs, hcs, h⟩ := h
  cases h
  apply GoodTree.and
  refine constraintsForKeys_good ?_ hcs
  intro k hk v c hbc
  obtain ⟨-, -, hname, -, -, -⟩ := from_spec_ok hbc
  rw [hname]
  exact propertyExpandMatch_network (toString network_index) k

theorem _parse_networks_good (spec : Spec) :
    ∀ t, _parse_networks spec = .ok t → GoodTree t := by
  intro t h
  cases spec with
  | list network_specs =>
    rw [_parse_networks] at h
    rw [exceptBind_ok_iff] at h
    obtain ⟨cs, hcs, h⟩ := h
    cases h
    apply goodTree_ungroupify
    apply GoodTree.and
    intro c hc
    obtain ⟨p, -, hp⟩ := mapExcept_ok_mem hcs c hc
    exact _parse_network_good p.2 p.1 c hp
  | dict kvs => simp [_parse_networks] at h
  | str s => simp [_parse_networks] at h
  | int i => simp [_parse_networks] at h
  | bool b => simp [_parse_networks] at h

theorem _parse_generic_spec_good (spec : Spec) :
    ∀ t, _parse_generic_spec spec = .ok t → GoodTree t := by
  intro t h
  rw [_parse_generic_spec] at h
  rw [exceptBind_ok_iff] at h
  obtain ⟨arch, harch, h⟩ := h
  rw [exceptBind_ok_iff] at h
  obtain ⟨boot, hboot, h⟩ := h
  rw [exceptBind_ok_iff] at h
  obtain ⟨cpu, hcpu, h⟩ := h
  rw [exceptBind_ok_iff] at h
  obtain ⟨memory, hmemory, h⟩ := h
  rw [exceptBind_ok_iff] at h
  obtain ⟨disk, hdisk, h⟩ := h
  rw [exceptBind_ok_iff] at h
  obtain ⟨network, hnetwork, h⟩ := h
  rw [exceptBind_ok_iff] at h
  obtain ⟨hostname, hhostname, h⟩ := h
  rw [exceptBind_ok_iff] at h
  obtain ⟨virtualization, hvirt, h⟩ := h
  cases h
  apply goodTree_ungroupify
  apply GoodTree.and
  intro c hc
  simp only [List.mem_append] at hc
  rcases hc with ((((((hc | hc) | hc) | hc) | hc) | hc) | hc) | hc
  · exact _hw_key_direct_good (by decide) harch c hc
  · exact _hw_key_sub_good _parse_boot_good hboot c hc
  · exact _hw_key_sub_good _parse_cpu_good hcpu c hc
  · exact _hw_key_quantity_good (by decide) hmemory c hc
  · exact _hw_key_sub_good _parse_disks_good hdisk c hc
  · exact _hw_key_sub_good _parse_networks_good hnetwork c hc
  · exact _hw_key_direct_good (by decide) hhostname c hc
  · exact _hw_key_sub_good _parse_virtualization_good hvirt c hc

theorem _parse_blocks_mem :
    ∀ {members : List Spec} {cs : List ConstraintTree},
      _parse_blocks members = .ok cs →
      ∀ c ∈ cs, ∃ m ∈ members, _parse_block m = .ok c := by
  intro members
  induction members with
  | nil =>
    intro cs h c hc
    rw [_parse_blocks] at h
    cases h
    cases hc
  | cons m rest ih =>
    intro cs h c hc
    rw [_parse_blocks] at h
    rw [exceptBind_ok_iff] at h
    obtain ⟨c0, hc0, h⟩ := h
    rw [exceptBind_ok_iff] at h
    obtain ⟨cs0, hcs0, h⟩ := h
    cases h
    rcases List.mem_cons.1 hc with rfl | hmem
    · exact ⟨m, by simp, hc0⟩
    · obtain ⟨m2, hm2, hb⟩ := ih hcs0 c hmem
      exact ⟨m2, List.mem_cons_of_mem _ hm2, hb⟩

/-- Every tree returned by the block dispatcher has only grammar-accepted
leaf names (strong induction on the size of the raw spec). -/
theorem _parse_block_good :
    ∀ (spec : Spec) (t : ConstraintTree),
      _parse_block spec = .ok t → GoodTree t := by
  suffices H : ∀ (n : Nat) (spec : Spec), sizeOf spec ≤ n →
      ∀ t, _parse_block spec = .ok t → GoodTree t by
    intro spec t h
    exact H (sizeOf spec) spec le_rfl t h
  intro n
  induction n with
  | zero =>
    intro spec hle t h
    exfalso
    have h1 : 1 ≤ sizeOf spec := by cases spec <;> simp
    omega
  | succ n ih =>
    intro spec hle t h
    rw [_parse_block] at h
    split at h
    · next v hv =>
      have hlt := Spec.sizeOf_find_lt hv
      cases v with
      | list members =>
        rw [_parse_and] at h
        rw [exceptBind_ok_iff] at h
        obtain ⟨cs, hcs, h2⟩ := h
        cases h2
        apply goodTree_ungroupify
        apply GoodTree.and
        intro c hc
        obtain ⟨m, hm, hb⟩ := _parse_blocks_mem hcs c hc
        have hm_lt : sizeOf m < sizeOf (Spec.list members) := by
          have := List.sizeOf_lt_of_mem hm
          simp only [Spec.list.sizeOf_spec]
          omega
        exact ih m (by omega) c hb
      | dict kvs => simp [_parse_and] at h
      | str s => simp [_parse_and] at h
      | int i => simp [_parse_and] at h
      | bool b => simp [_parse_and] at h
    · split at h
      · next v hv =>
        have hlt := Spec.sizeOf_find_lt hv
        cases v with
        | list members =>
          rw [_parse_or] at h
          rw [exceptBind_ok_iff] at h
          obtain ⟨cs, hcs, h2⟩ := h
          cases h2
          apply goodTree_ungroupify
          apply GoodTree.or
          intro c hc
          obtain ⟨m, hm, hb⟩ := _parse_blocks_mem hcs c hc
          have hm_lt : sizeOf m < sizeOf (Spec.list members) := by
            have := List.sizeOf_lt_of_mem hm
            simp only [Spec.list.sizeOf_spec]
            omega
          exact ih m (by omega) c hb
        | dict kvs => simp [_parse_or] at h
        | str s => simp [_parse_or] at h
        | int i => simp [_parse_or] at h
        | bool b => simp [_parse_or] at h
      · exact _parse_generic_spec_good spec t h

/-- C9: every constraint name the domain sub-parsers generate - the fixed
dotted names and the indexed `disk[i].size` / `network[i].type` families -
matches `PROPERTY_EXPAND_PATTERN`, and consequently `expand_name`'s
match-success assertion cannot fire on any leaf of any tree produced by
`parse_hw_requirements`. -/
theorem c9_generated_names_match :
    ((propertyExpandMatch "arch").isSome ∧
      (propertyExpandMatch "hostname").isSome ∧
      (propertyExpandMatch "memory").isSome ∧
      (propertyExpandMatch "boot.method").isSome ∧
      (propertyExpandMatch "virtualization.is_virtualized").isSome ∧
      (propertyExpandMatch "virtualization.is_supported").isSome ∧
      (propertyExpandMatch "virtualization.hypervisor").isSome ∧
      (propertyExpandMatch "cpu.processors").isSome ∧
      (propertyExpandMatch "cpu.cores").isSome ∧
      (propertyExpandMatch "cpu.model").isSome ∧
      (propertyExpandMatch "cpu.family").isSome ∧
      (propertyExpandMatch "cpu.model_name").isSome) ∧
    (∀ i : Nat,
      (propertyExpandMatch ("disk[" ++ toString i ++ "].size")).isSome ∧
      (propertyExpandMatch ("network[" ++ toString i ++ "].type")).isSome) ∧
    (∀ (spec : Spec) (t : ConstraintTree),
      parse_hw_requirements spec = .ok t → GoodTree t) := by
  refine ⟨?_, ?_, ?_⟩
  · decide
  · intro i
    constructor
    · have h2 := propertyExpandMatch_disk (toString i) "size"
      rw [String.append_assoc] at h2
      simpa using h2
    · have h2 := propertyExpandMatch_network (toString i) "type"
      rw [String.append_assoc] at h2
      simpa using h2
  · intro spec t h
    rw [parse_hw_requirements] at h
    exact _parse_block_good spec t h

/-- Witness for C9: the tree parsed from a concrete spec is covered by the
no-assertion-failure guarantee. -/
theorem c9_witness :
    GoodTree (.leaf ⟨"arch", Operator.EQ, OperatorHandlerType.op_eq,
      ConstraintValueType.str "x86_64", "x86_64", none⟩) :=
  c9_generated_names_match.2.2 (.dict [("arch", .str "x86_64")]) _
    (by rw [parse_hw_requirements, _parse_block]; rfl)

end Tmt
